import Mathlib

/- Verification of the MyMultiBoxing input-broadcast core: a shallow
   embedding of shortcuts.py (normalize_shortcut, ShortcutHandler),
   broadcaster.py (Broadcaster) and the key-press pipeline of core.py
   (CoreController), with theorems about shortcut normalization and
   matching, auto-repeat suppression, the injection guard, and the
   focus-sweep delivery strategy. -/

/-- ASCII lower-casing of one character, modelling Python str.lower on the
    ASCII range (the only range the program's key names exercise). -/
def asciiLower (c : Char) : Char :=
  if 65 ≤ c.toNat ∧ c.toNat ≤ 90 then Char.ofNat (c.toNat + 32) else c

/-- ASCII upper-casing of one character, modelling Python str.upper. -/
def asciiUpper (c : Char) : Char :=
  if 97 ≤ c.toNat ∧ c.toNat ≤ 122 then Char.ofNat (c.toNat - 32) else c

/-- ASCII whitespace stripped by Python str.strip(). -/
def isWsChar (c : Char) : Bool :=
  decide (c = ' ') || decide (c = '\t') || decide (c = '\n') ||
  decide (c = '\r') || decide (c = '\x0b') || decide (c = '\x0c')

/-- Python s.split("+") at the character level: split on every '+'. -/
def splitPlus : List Char → List (List Char)
  | [] => [[]]
  | c :: cs =>
    if c = '+' then [] :: splitPlus cs
    else
      match splitPlus cs with
      | [] => [[c]]
      | t :: ts => (c :: t) :: ts

/-- Python "+".join at the character level. -/
def joinPlus : List (List Char) → List Char
  | [] => []
  | [t] => t
  | t :: ts => t ++ '+' :: joinPlus ts

/-- Trailing-whitespace removal, via reversal. -/
def dropTrailWs (t : List Char) : List Char :=
  (t.reverse.dropWhile isWsChar).reverse

/-- Python str.strip(). -/
def trimTok (t : List Char) : List Char :=
  dropTrailWs (t.dropWhile isWsChar)

/-- Python str.lower() on a token (ASCII). -/
def lowerTok (t : List Char) : List Char := t.map asciiLower

/-- shortcuts._CANON_ORDER = ["alt", "control", "shift"] (fixed order). -/
def canonOrder : List (List Char) :=
  [("alt" : String).data, ("control" : String).data, ("shift" : String).data]

/-- The comprehension [p.strip().lower() for p in spec.split("+") if p.strip()]
    from normalize_shortcut. -/
def partsTok (cs : List Char) : List (List Char) :=
  ((splitPlus cs).filter (fun p => trimTok p ≠ [])).map (fun p => lowerTok (trimTok p))

/-- The tail of normalize_shortcut: key = parts[-1], mods = the parts before
    it that are canonical modifiers, ordered in _CANON_ORDER order, joined
    with '+'.  Empty part list gives the empty result. -/
def normParts : List (List Char) → List Char
  | [] => []
  | p :: ps =>
    let key := (p :: ps).getLast (List.cons_ne_nil p ps)
    let mods := (p :: ps).dropLast.filter (fun q => q ∈ canonOrder)
    let ordered := canonOrder.filter (fun m => m ∈ mods)
    joinPlus (ordered ++ [key])

/-- normalize_shortcut at the character-list level ("if not spec: return ''"
    first, then the part pipeline). -/
def normTok (cs : List Char) : List Char :=
  if cs = [] then [] else normParts (partsTok cs)

/-- shortcuts.normalize_shortcut. -/
def normalize_shortcut (spec : String) : String := ⟨normTok spec.data⟩

/-- Result of ShortcutHandler.match: ("action", name) or ("window", idx). -/
inductive MatchRes where
  | action (name : String)
  | window (idx : Nat)
deriving DecidableEq, Repr

/-- Python dict assignment d[k] = v on an insertion-ordered association
    list: overwrites the value in place if the key is present, else
    appends a new entry. -/
def dictInsert (m : List (String × String)) (k v : String) :
    List (String × String) :=
  if m.any (fun e => e.1 = k) then
    m.map (fun e => if e.1 = k then (k, v) else e)
  else m ++ [(k, v)]

/-- Python dict .get(k): the value stored under key k, if any. -/
def lookupA (m : List (String × String)) (k : String) : Option String :=
  (m.find? (fun e => e.1 = k)).map (fun e => e.2)

/-- The shortcuts section of the configuration mapping (six action keys,
    each defaulting to "", plus the window_keys list). -/
structure SConfig where
  prev : String := ""
  next : String := ""
  minimize_all : String := ""
  close_all : String := ""
  toggle_broadcast : String := ""
  toggle_overlay : String := ""
  window_keys : List String := []
deriving DecidableEq, Repr

/-- The fixed iteration order over action keys in ShortcutHandler._rebuild:
    ("prev", "next", "minimize_all", "close_all", "toggle_broadcast",
    "toggle_overlay"), paired with their configured combo strings. -/
def actionEntries (c : SConfig) : List (String × String) :=
  [("prev", c.prev), ("next", c.next), ("minimize_all", c.minimize_all),
   ("close_all", c.close_all), ("toggle_broadcast", c.toggle_broadcast),
   ("toggle_overlay", c.toggle_overlay)]

/-- ShortcutHandler._rebuild, action half: normalized combo -> action name,
    built by successive dict assignment (skipping empty combos). -/
def buildActionMap (c : SConfig) : List (String × String) :=
  (actionEntries c).foldl
    (fun m e =>
      if normalize_shortcut e.2 ≠ "" then dictInsert m (normalize_shortcut e.2) e.1
      else m) []

/-- ShortcutHandler._rebuild, window half: the (normalized combo, index)
    pairs from enumerate(window_keys), skipping empty combos. -/
def buildWindowIndices (c : SConfig) : List (String × Nat) :=
  c.window_keys.enum.filterMap
    (fun e =>
      if normalize_shortcut e.2 ≠ "" then some (normalize_shortcut e.2, e.1)
      else none)

/-- ShortcutHandler state after _rebuild: _action_map and _window_indices. -/
structure SHandler where
  amap : List (String × String)
  windows : List (String × Nat)
deriving DecidableEq, Repr

/-- ShortcutHandler.__init__ (which runs _rebuild). -/
def buildHandler (c : SConfig) : SHandler :=
  ⟨buildActionMap c, buildWindowIndices c⟩

/-- A configuration binding two different action keys (prev and next) to
    the same combo, used to exhibit the dict-overwrite resolution. -/
def dupConfig : SConfig := { prev := "Alt+a", next := "alt+a" }

/-- The linear window-index scan in ShortcutHandler.match: first pair whose
    combo equals combo_now wins. -/
def findWin (ws : List (String × Nat)) (combo : String) : Option MatchRes :=
  (ws.find? (fun e => combo = e.1)).map (fun e => MatchRes.window e.2)

/-- ShortcutHandler.match (the stored action names are the six non-empty
    key names, so Python's `if action:` truthiness test is the option
    match). -/
def SHandler.matchCombo (h : SHandler) (comboNow : String) : Option MatchRes :=
  if comboNow = "" then none
  else
    match lookupA h.amap comboNow with
    | some a => some (MatchRes.action a)
    | none => findWin h.windows comboNow

/-- Broadcaster mode. -/
inductive BMode where
  | background
  | focus_sweep
deriving DecidableEq, Repr

/-- Broadcaster state (x11 module and settle delays are external). -/
structure BState where
  enabled : Bool
  mode : BMode
deriving DecidableEq, Repr

/-- Observable effects of one Broadcaster call: focus w is a window
    activation (x11.activate_window), inject w p an injection performed
    while window w holds the focus (focus-sweep), injectBg w p an
    injection addressed directly at window w (background). -/
inductive BEvent where
  | focus (w : Nat)
  | inject (w : Nat) (payload : String)
  | injectBg (w : Nat) (payload : String)
deriving DecidableEq, Repr

/-- Python `if exclude and wid == exclude: continue` (None and 0 are
    falsy). -/
def excludedHit (exclude : Option Nat) (w : Nat) : Bool :=
  match exclude with
  | none => false
  | some e => decide (e ≠ 0) && decide (w = e)

/-- The per-target loop shared by _send_key_focus_sweep and
    _send_literal_focus_sweep.  fault w = true models the subprocess
    injection for target w raising (check=True); the exception aborts the
    remaining loop.  Window activation itself never raises
    (Broadcaster._focus swallows exceptions).  Returns the event trace of
    the loop and whether it raised. -/
def sweepSteps (payload : String) (fault : Nat → Bool) (exclude : Option Nat) :
    List Nat → List BEvent × Bool
  | [] => ([], false)
  | w :: rest =>
    if excludedHit exclude w then sweepSteps payload fault exclude rest
    else if fault w then ([BEvent.focus w], true)
    else
      let r := sweepSteps payload fault exclude rest
      (BEvent.focus w :: BEvent.inject w payload :: r.1, r.2)

/-- Focus-sweep send body: active = self._get_active_safe() snapshot, the
    target loop inside try:, and the finally: block that restores focus to
    the snapshot when it is truthy — on the exception path as well. -/
def focusSweepTrace (payload : String) (targets : List Nat)
    (exclude : Option Nat) (activeSnap : Option Nat) (fault : Nat → Bool) :
    List BEvent × Bool :=
  let r := sweepSteps payload fault exclude targets
  match activeSnap with
  | some a => if a ≠ 0 then (r.1 ++ [BEvent.focus a], r.2) else r
  | none => r

/-- Broadcaster._send_key_focus_sweep. -/
def sendKeyFocusSweep (seq : String) (targets : List Nat)
    (exclude : Option Nat) (activeSnap : Option Nat) (fault : Nat → Bool) :
    List BEvent × Bool :=
  focusSweepTrace seq targets exclude activeSnap fault

/-- Broadcaster._send_literal_focus_sweep (identical control flow, the
    payload being the literal character). -/
def sendLiteralFocusSweep (ch : String) (targets : List Nat)
    (exclude : Option Nat) (activeSnap : Option Nat) (fault : Nat → Bool) :
    List BEvent × Bool :=
  focusSweepTrace ch targets exclude activeSnap fault

/-- Background strategy: per-window direct injection, each failure caught
    and logged, never aborting the loop and never touching focus. -/
def bgTrace (payload : String) (fault : Nat → Bool) (exclude : Option Nat) :
    List Nat → List BEvent
  | [] => []
  | w :: rest =>
    if excludedHit exclude w then bgTrace payload fault exclude rest
    else if fault w then bgTrace payload fault exclude rest
    else BEvent.injectBg w payload :: bgTrace payload fault exclude rest

/-- Broadcaster.send_key: no-op when disabled or the sequence is empty,
    otherwise dispatch on mode. -/
def Broadcaster.send_key (b : BState) (seq : String) (targets : List Nat)
    (exclude : Option Nat) (activeSnap : Option Nat) (fault : Nat → Bool) :
    List BEvent × Bool :=
  if !b.enabled || seq = "" then ([], false)
  else
    match b.mode with
    | BMode.background => (bgTrace seq fault exclude targets, false)
    | BMode.focus_sweep => sendKeyFocusSweep seq targets exclude activeSnap fault

/-- Broadcaster.send_literal: no-op when disabled or the char is empty,
    otherwise dispatch on mode. -/
def Broadcaster.send_literal (b : BState) (ch : String) (targets : List Nat)
    (exclude : Option Nat) (activeSnap : Option Nat) (fault : Nat → Bool) :
    List BEvent × Bool :=
  if !b.enabled || ch = "" then ([], false)
  else
    match b.mode with
    | BMode.background => (bgTrace ch fault exclude targets, false)
    | BMode.focus_sweep => sendLiteralFocusSweep ch targets exclude activeSnap fault

/-- The window-activation calls of a trace, in order. -/
def focusList (evs : List BEvent) : List Nat :=
  evs.filterMap (fun e =>
    match e with
    | BEvent.focus w => some w
    | _ => none)

/-- The focus-sweep injection recipients of a trace, in order. -/
def injectTargets (evs : List BEvent) : List Nat :=
  evs.filterMap (fun e =>
    match e with
    | BEvent.inject w _ => some w
    | _ => none)

/-- pynput key objects as seen by the listener: a KeyCode carrying a
    character, or a Key special whose name n is str(Key.x) without the
    "Key." part (such as "enter", "esc", "f1", "alt", "alt_l"). -/
inductive RawKey where
  | code (c : Char)
  | special (n : String)
deriving DecidableEq, Repr

/-- CoreController._mod_names. -/
def modNames : List String := ["alt", "control", "shift", "meta", "super", "win"]

/-- The name half of _decode_key_precise: KeyCode chars are lower-cased;
    Key.esc is the only special whose special_map name ("escape") differs
    from its lower-cased str(key) fallback name; every other special (the
    rest of special_map, the f-keys and the fallback) decodes to its own
    lower-cased name. -/
def decodeName : RawKey → String
  | RawKey.code c => ⟨lowerTok [c]⟩
  | RawKey.special n => if n = "esc" then "escape" else ⟨lowerTok n.data⟩

/-- The alt flag of _decode_key_precise: any of Key.alt / alt_l / alt_r in
    current_keys. -/
def altHeld (ks : List RawKey) : Bool :=
  decide (RawKey.special "alt" ∈ ks) || decide (RawKey.special "alt_l" ∈ ks) ||
  decide (RawKey.special "alt_r" ∈ ks)

/-- The ctrl flag of _decode_key_precise. -/
def ctrlHeld (ks : List RawKey) : Bool :=
  decide (RawKey.special "ctrl" ∈ ks) || decide (RawKey.special "ctrl_l" ∈ ks) ||
  decide (RawKey.special "ctrl_r" ∈ ks)

/-- The shift flag of _decode_key_precise. -/
def shiftHeld (ks : List RawKey) : Bool :=
  decide (RawKey.special "shift" ∈ ks) || decide (RawKey.special "shift_l" ∈ ks) ||
  decide (RawKey.special "shift_r" ∈ ks)

/-- CoreController._stable_name_for_sets (the identity on decoded names:
    both branches return key_name unchanged). -/
def stableNameForSets (keyName : String) : String := keyName

/-- CoreController._is_printable_char: one character of string.printable
    minus tab/newline/CR/VT/FF, which is exactly ASCII 0x20..0x7e. -/
def isPrintableName (keyName : String) : Bool :=
  match keyName.data with
  | [c] => decide (32 ≤ c.toNat) && decide (c.toNat ≤ 126)
  | _ => false

/-- Python k.startswith("f") and k[1:].isdigit() (ASCII digits). -/
def isFDigits : List Char → Bool
  | 'f' :: rest =>
    decide (rest ≠ []) && rest.all (fun c => decide (48 ≤ c.toNat) && decide (c.toNat ≤ 57))
  | _ => false

/-- CoreController._map_key_for_xdotool. -/
def mapKeyForXdotool (k : String) : String :=
  if k = "enter" then "Return"
  else if k = "space" then "space"
  else if k = "tab" then "Tab"
  else if k = "backspace" then "BackSpace"
  else if isFDigits k.data then ⟨k.data.map asciiUpper⟩
  else k

/-- External calls the press handler makes (Broadcaster sends, action
    execution, window activation by index shortcut). -/
inductive OutCall where
  | sendLiteral (ch : String) (targets : List Nat) (exclude : Option Nat)
  | sendKey (seq : String) (targets : List Nat) (exclude : Option Nat)
  | execAction (name : String)
  | activate (w : Nat)
deriving DecidableEq, Repr

/-- Whether an external call is a Broadcaster call. -/
def isBroadcastCall : OutCall → Bool
  | OutCall.sendLiteral _ _ _ => true
  | OutCall.sendKey _ _ _ => true
  | _ => false

/-- The shortcut-dispatch calls (action execution / index activation) of a
    call list. -/
def dispatchCalls (l : List OutCall) : List OutCall :=
  l.filter (fun c =>
    match c with
    | OutCall.execAction _ => true
    | OutCall.activate _ => true
    | _ => false)

/-- CoreController state touched by the press pipeline. -/
structure CoreState where
  running : Bool
  suppress : Int
  currentKeys : List RawKey
  pressedNames : List String
  wins : List Nat
  inhibitKeys : List String
  broadcastEnabled : Bool
  overlayEnabled : Bool
  bEnabled : Bool
  bMode : BMode
  handler : SHandler
deriving DecidableEq, Repr

/-- Python set.add on the key-object set. -/
def insertKey (l : List RawKey) (k : RawKey) : List RawKey :=
  if k ∈ l then l else k :: l

/-- Python set.add on the stable-name set. -/
def insertName (l : List String) (s : String) : List String :=
  if s ∈ l then l else s :: l

/-- CoreController._track_press_sets: record the press in both tracking
    sets (the stable name only when non-empty). -/
def trackPressSets (s : CoreState) (k : RawKey) (stable : String) : CoreState :=
  { s with
    currentKeys := insertKey s.currentKeys k,
    pressedNames :=
      if stable ≠ "" then insertName s.pressedNames stable else s.pressedNames }

/-- Python `active not in self.wins`, negated (None is in no list). -/
def activeIn (active : Option Nat) (wins : List Nat) : Bool :=
  match active with
  | some a => decide (a ∈ wins)
  | none => false

/-- The injection-guard increment on entering injection_guard. -/
def incSuppress (x : Int) : Int := x + 1

/-- The injection-guard decrement max(0, x - 1) in the finally: clause. -/
def decSuppress (x : Int) : Int := max 0 (x - 1)

/-- One full pass through CoreController.injection_guard around a body
    that may raise: increment on entry, decrement on every exit path, the
    body's exception (if any) propagating. -/
def guardRun (x : Int) (bodyRaises : Bool) : Int × Bool :=
  (decSuppress (incSuppress x), bodyRaises)

/-- Net state effect of wrapping the broadcast in injection_guard when the
    broadcaster is in focus-sweep mode (on_press wraps only then). -/
def applyGuardNet (s : CoreState) : CoreState :=
  if s.bMode = BMode.focus_sweep then
    { s with suppress := decSuppress (incSuppress s.suppress) }
  else s

/-- Calls made by CoreController.focus_index (activate only in range). -/
def focusIndexCalls (wins : List Nat) (idx : Nat) : List OutCall :=
  match wins.get? idx with
  | some w => [OutCall.activate w]
  | none => []

/-- CoreController._exec_action state effects: prev/next/minimize_all/
    close_all act only on external windows; toggle_broadcast flips the
    config flag and the broadcaster's enabled flag (set_broadcast_enabled);
    toggle_overlay flips the overlay flag. -/
def execActionState (s : CoreState) (a : String) : CoreState :=
  if a = "toggle_broadcast" then
    { s with broadcastEnabled := !s.broadcastEnabled,
             bEnabled := !s.broadcastEnabled }
  else if a = "toggle_overlay" then
    { s with overlayEnabled := !s.overlayEnabled }
  else s

/-- The "+".join combo construction in on_press, then normalized. -/
def comboNow (alt ctrl shift : Bool) (keyName : String) : String :=
  normalize_shortcut (String.intercalate "+"
    ((if alt then ["alt"] else []) ++ (if ctrl then ["control"] else []) ++
     (if shift then ["shift"] else []) ++ [keyName]))

/-- The xdotool sequence built in on_press (the modifier spelled "ctrl"
    here, unlike the combo). -/
def seqFor (alt ctrl shift : Bool) (keyName : String) : String :=
  let sk := mapKeyForXdotool keyName
  let parts := (if alt then ["alt"] else []) ++ (if ctrl then ["ctrl"] else []) ++
               (if shift then ["shift"] else [])
  if parts ≠ [] then String.intercalate "+" (parts ++ [sk]) else sk

/-- CoreController._start_key_listener.on_press for one key-down event;
    active is the x11.get_active_window() value observed by this event.
    Returns the successor state and the external calls made. -/
def onPress (s : CoreState) (k : RawKey) (active : Option Nat) :
    CoreState × List OutCall :=
  if !s.running then (s, [])
  else if s.suppress ≠ 0 then (s, [])
  else
    let keyName := decodeName k
    let alt := altHeld s.currentKeys
    let ctrl := ctrlHeld s.currentKeys
    let shift := shiftHeld s.currentKeys
    let stable := stableNameForSets keyName
    if keyName ∈ modNames then (trackPressSets s k stable, [])
    else if stable ∈ s.pressedNames then (s, [])
    else
      let s1 := trackPressSets s k stable
      if !activeIn active s1.wins then (s1, [])
      else
        let combo := comboNow alt ctrl shift keyName
        match SHandler.matchCombo s1.handler combo with
        | some (MatchRes.action a) => (execActionState s1 a, [OutCall.execAction a])
        | some (MatchRes.window n) => (s1, focusIndexCalls s1.wins n)
        | none =>
          if !s1.broadcastEnabled then (s1, [])
          else if keyName ∈ s1.inhibitKeys ∨ combo ∈ s1.inhibitKeys then (s1, [])
          else if !(alt || ctrl || shift) && isPrintableName keyName then
            (applyGuardNet s1, [OutCall.sendLiteral keyName s1.wins active])
          else
            (applyGuardNet s1,
             [OutCall.sendKey (seqFor alt ctrl shift keyName) s1.wins active])

/-- A run of consecutive press events (no intervening releases), each with
    the active window observed at that moment; collects the per-event
    output call lists. -/
def runPresses : CoreState → List (RawKey × Option Nat) →
    CoreState × List (List OutCall)
  | s, [] => (s, [])
  | s, e :: es =>
    let r1 := onPress s e.1 e.2
    let r2 := runPresses r1.1 es
    (r2.1, r1.2 :: r2.2)

/-- Total number of Broadcaster calls over a run. -/
def broadcastCallCount (outs : List (List OutCall)) : Nat :=
  (outs.map (fun l => (l.filter isBroadcastCall).length)).sum

/-- A canonical-form token: nonempty, free of '+', and fixed by both
    Python strip() and lower(). -/
def goodTok (t : List Char) : Prop :=
  t ≠ [] ∧ '+' ∉ t ∧ trimTok t = t ∧ lowerTok t = t

instance : DecidablePred goodTok := fun t => by
  unfold goodTok
  infer_instance

theorem charToNat_lt (c : Char) : c.toNat < 1114112 := by
  rcases c.valid with h | ⟨h1, h2⟩ <;> simp [Char.toNat] at * <;> omega

theorem toNat_ofNat_valid (n : Nat) (h1 : n < 55296) : (Char.ofNat n).toNat = n := by
  have hv : n.isValidChar := Or.inl h1
  simp only [Char.ofNat, hv, dif_pos, Char.ofNatAux, Char.toNat, UInt32.toNat]
  simp [BitVec.toNat_ofNat]

theorem char_eq_iff (c d : Char) : c = d ↔ c.toNat = d.toNat := by
  constructor
  · intro h; rw [h]
  · intro h
    exact Char.ext (UInt32.ext h)

theorem asciiLower_toNat (c : Char) :
    (asciiLower c).toNat =
      if 65 ≤ c.toNat ∧ c.toNat ≤ 90 then c.toNat + 32 else c.toNat := by
  unfold asciiLower
  split
  · next h => rw [toNat_ofNat_valid _ (by omega)]
  · rfl

theorem asciiLower_idem (c : Char) : asciiLower (asciiLower c) = asciiLower c := by
  rw [char_eq_iff, asciiLower_toNat, asciiLower_toNat]
  split_ifs <;> omega

theorem asciiLower_plus (c : Char) : asciiLower c = '+' ↔ c = '+' := by
  rw [char_eq_iff, char_eq_iff (d := '+'), asciiLower_toNat]
  have : ('+' : Char).toNat = 43 := rfl
  rw [this]
  split <;> omega

theorem isWsChar_iff (c : Char) :
    isWsChar c = true ↔
      (c.toNat = 32 ∨ c.toNat = 9 ∨ c.toNat = 10 ∨ c.toNat = 13 ∨
       c.toNat = 11 ∨ c.toNat = 12) := by
  have h1 : (' ' : Char).toNat = 32 := rfl
  have h2 : ('\t' : Char).toNat = 9 := rfl
  have h3 : ('\n' : Char).toNat = 10 := rfl
  have h4 : ('\r' : Char).toNat = 13 := rfl
  have h5 : ('\x0b' : Char).toNat = 11 := rfl
  have h6 : ('\x0c' : Char).toNat = 12 := rfl
  simp only [isWsChar, Bool.or_eq_true, decide_eq_true_eq, char_eq_iff, h1, h2, h3, h4, h5, h6]
  tauto

theorem isWsChar_asciiLower (c : Char) : isWsChar (asciiLower c) = isWsChar c := by
  rcases hw : isWsChar c
  · rcases h2 : isWsChar (asciiLower c)
    · rfl
    · exfalso
      rw [isWsChar_iff, asciiLower_toNat] at h2
      rw [Bool.eq_false_iff, Ne, isWsChar_iff] at hw
      split at h2 <;> omega
  · rw [isWsChar_iff] at hw ⊢
    rw [asciiLower_toNat]
    split <;> omega

theorem lowerTok_eq_nil (t : List Char) : lowerTok t = [] ↔ t = [] := by
  simp [lowerTok]

theorem lowerTok_idem (t : List Char) : lowerTok (lowerTok t) = lowerTok t := by
  simp only [lowerTok, List.map_map]
  exact List.map_congr_left (fun a _ => asciiLower_idem a)

theorem plus_notMem_lowerTok {t : List Char} (h : '+' ∉ t) : '+' ∉ lowerTok t := by
  simp only [lowerTok, List.mem_map, not_exists]
  rintro x ⟨hx, he⟩
  exact h ((asciiLower_plus x).mp he ▸ hx)

theorem mem_trimTok {x : Char} {t : List Char} (h : x ∈ trimTok t) : x ∈ t := by
  simp only [trimTok, dropTrailWs] at h
  rw [List.mem_reverse] at h
  have h2 := (List.dropWhile_sublist isWsChar (l := (t.dropWhile isWsChar).reverse)).subset h
  rw [List.mem_reverse] at h2
  exact (List.dropWhile_sublist isWsChar (l := t)).subset h2

theorem plus_notMem_trimTok {t : List Char} (h : '+' ∉ t) : '+' ∉ trimTok t :=
  fun hc => h (mem_trimTok hc)

theorem dropWhile_eq_self_of_front {p : Char → Bool} {x y : List Char}
    (hp : y <+: x) (hx : List.dropWhile p x = x) : List.dropWhile p y = y := by
  rcases y with _ | ⟨a, y2⟩
  · simp
  · rcases hp with ⟨t, ht⟩
    rcases hpa : p a
    · simp [List.dropWhile_cons, hpa]
    · exfalso
      have hlen : (List.dropWhile p x).length ≤ (y2 ++ t).length := by
        rw [← ht]
        simp only [List.cons_append, List.dropWhile_cons, hpa, if_true]
        exact (List.dropWhile_sublist p).length_le
      rw [hx, ← ht] at hlen
      simp at hlen

theorem dropTrailWs_front (x : List Char) : dropTrailWs x <+: x := by
  unfold dropTrailWs
  rw [← List.reverse_suffix, List.reverse_reverse]
  exact List.dropWhile_suffix isWsChar

theorem dropTrailWs_idem (x : List Char) : dropTrailWs (dropTrailWs x) = dropTrailWs x := by
  unfold dropTrailWs
  rw [List.reverse_reverse, List.dropWhile_idempotent]

theorem trimTok_idem (t : List Char) : trimTok (trimTok t) = trimTok t := by
  unfold trimTok
  have hu : List.dropWhile isWsChar (List.dropWhile isWsChar t) = List.dropWhile isWsChar t :=
    List.dropWhile_idempotent _ _
  rw [dropWhile_eq_self_of_front (dropTrailWs_front _) hu, dropTrailWs_idem]

theorem dropWhile_lowerTok (l : List Char) :
    List.dropWhile isWsChar (lowerTok l) = lowerTok (List.dropWhile isWsChar l) := by
  unfold lowerTok
  rw [List.dropWhile_map]
  have hfun : (isWsChar ∘ asciiLower) = isWsChar := by
    funext c
    simp [Function.comp, isWsChar_asciiLower]
  rw [hfun]

theorem dropTrailWs_lowerTok (l : List Char) :
    dropTrailWs (lowerTok l) = lowerTok (dropTrailWs l) := by
  unfold dropTrailWs lowerTok
  rw [← List.map_reverse, List.dropWhile_map]
  have : (isWsChar ∘ asciiLower) = isWsChar := by
    funext c
    simp [Function.comp, isWsChar_asciiLower]
  rw [this, List.map_reverse]

theorem trimTok_lowerTok (t : List Char) :
    trimTok (lowerTok t) = lowerTok (trimTok t) := by
  unfold trimTok
  rw [dropWhile_lowerTok, dropTrailWs_lowerTok]

theorem splitPlus_ne_nil (cs : List Char) : splitPlus cs ≠ [] := by
  induction cs with
  | nil => simp [splitPlus]
  | cons c cs ih =>
    rw [splitPlus]
    split
    · simp
    · rcases h : splitPlus cs with _ | ⟨t, ts⟩
      · simp
      · simp

theorem plus_notMem_splitPlus {cs : List Char} {t : List Char}
    (ht : t ∈ splitPlus cs) : '+' ∉ t := by
  induction cs generalizing t with
  | nil =>
    simp only [splitPlus, List.mem_singleton] at ht
    simp [ht]
  | cons c cs ih =>
    rw [splitPlus] at ht
    split at ht
    · rcases List.mem_cons.mp ht with h | h
      · simp [h]
      · exact ih h
    · next hc =>
      rcases hsp : splitPlus cs with _ | ⟨u, us⟩
      · exact absurd hsp (splitPlus_ne_nil cs)
      · rw [hsp] at ht
        rcases List.mem_cons.mp ht with h | h
        · subst h
          intro hmem
          rcases List.mem_cons.mp hmem with h2 | h2
          · exact hc h2.symm
          · exact ih (hsp ▸ List.mem_cons_self u us) h2
        · exact ih (hsp ▸ List.mem_cons_of_mem u h)

theorem splitPlus_no_plus {t : List Char} (h : '+' ∉ t) : splitPlus t = [t] := by
  induction t with
  | nil => rfl
  | cons c cs ih =>
    have hc : c ≠ '+' := fun hcc => h (hcc ▸ List.mem_cons_self c cs)
    have hcs : '+' ∉ cs := fun hm => h (List.mem_cons_of_mem c hm)
    rw [splitPlus, if_neg (fun hcc => hc hcc), ih hcs]

theorem splitPlus_append {t : List Char} (h : '+' ∉ t) (ys : List Char)
    {u : List Char} {us : List (List Char)} (hys : splitPlus ys = u :: us) :
    splitPlus (t ++ ys) = (t ++ u) :: us := by
  induction t with
  | nil => simpa using hys
  | cons c cs ih =>
    have hc : c ≠ '+' := fun hcc => h (hcc ▸ List.mem_cons_self c cs)
    have hcs : '+' ∉ cs := fun hm => h (List.mem_cons_of_mem c hm)
    rw [List.cons_append, splitPlus, if_neg (fun hcc => hc hcc), ih hcs]
    rfl

theorem splitPlus_joinPlus {L : List (List Char)} (hne : L ≠ [])
    (hnp : ∀ t ∈ L, '+' ∉ t) : splitPlus (joinPlus L) = L := by
  induction L with
  | nil => exact absurd rfl hne
  | cons t ts ih =>
    rcases ts with _ | ⟨u, us⟩
    · rw [joinPlus]
      exact splitPlus_no_plus (hnp t (List.mem_cons_self t []))
    · have hj : joinPlus (t :: u :: us) = t ++ '+' :: joinPlus (u :: us) := rfl
      rw [hj]
      have ht : '+' ∉ t := hnp t (List.mem_cons_self t _)
      have hrest : splitPlus (joinPlus (u :: us)) = u :: us :=
        ih (by simp) (fun x hx => hnp x (List.mem_cons_of_mem t hx))
      have hys : splitPlus ('+' :: joinPlus (u :: us)) = [] :: u :: us := by
        rw [splitPlus, if_pos rfl, hrest]
      rw [splitPlus_append ht _ hys]
      simp

theorem joinPlus_concat_ne_nil (ms : List (List Char)) {k : List Char} (hk : k ≠ []) :
    joinPlus (ms ++ [k]) ≠ [] := by
  rcases ms with _ | ⟨m, ms2⟩
  · simp only [List.nil_append, joinPlus]
    exact hk
  · rcases hm : ms2 ++ [k] with _ | ⟨x, xs⟩
    · simp at hm
    · have hj : joinPlus (m :: ms2 ++ [k]) = m ++ '+' :: joinPlus (x :: xs) := by
        rw [List.cons_append, hm]
        rfl
      rw [hj]
      simp


theorem canonOrder_nodup : canonOrder.Nodup := by decide

theorem canonOrder_good : ∀ m ∈ canonOrder, goodTok m := by decide

theorem partsTok_good {cs : List Char} : ∀ p ∈ partsTok cs, goodTok p := by
  intro p hp
  simp only [partsTok, List.mem_map, List.mem_filter] at hp
  rcases hp with ⟨q, ⟨hq, hqt⟩, rfl⟩
  have hqp : '+' ∉ q := plus_notMem_splitPlus hq
  have htne : trimTok q ≠ [] := by
    intro h
    rw [h] at hqt
    simp at hqt
  refine ⟨?_, ?_, ?_, ?_⟩
  · rw [Ne, lowerTok_eq_nil]
    exact htne
  · exact plus_notMem_lowerTok (plus_notMem_trimTok hqp)
  · rw [trimTok_lowerTok, trimTok_idem]
  · exact lowerTok_idem _

theorem normParts_eq {L : List (List Char)} (h : L ≠ []) :
    normParts L =
      joinPlus ((canonOrder.filter
        (fun m => m ∈ L.dropLast.filter (fun q => q ∈ canonOrder))) ++
        [L.getLast h]) := by
  rcases L with _ | ⟨p, ps⟩
  · exact absurd rfl h
  · rfl

theorem filter_mem_of_sublist_nodup {s l : List (List Char)}
    (hn : l.Nodup) (hs : s.Sublist l) : l.filter (fun x => x ∈ s) = s := by
  induction hs with
  | slnil => simp
  | cons a hsub ih =>
    next s2 l2 =>
      rw [List.nodup_cons] at hn
      have ha : a ∉ s2 := fun hc => hn.1 (hsub.subset hc)
      rw [List.filter_cons]
      have hd : (decide (a ∈ s2)) = false := by simp [ha]
      rw [hd]
      simp only [Bool.false_eq_true, if_false]
      exact ih hn.2
  | cons₂ a hsub ih =>
    next s2 l2 =>
      rw [List.nodup_cons] at hn
      rw [List.filter_cons]
      have hd : (decide (a ∈ a :: s2)) = true := by simp
      rw [hd]
      simp only [if_true]
      have hcongr : List.filter (fun x => decide (x ∈ a :: s2)) l2 =
          List.filter (fun x => decide (x ∈ s2)) l2 := by
        apply List.filter_congr
        intro x hx
        have hxa : x ≠ a := fun hc => hn.1 (hc ▸ hx)
        simp [List.mem_cons, hxa]
      rw [hcongr, ih hn.2]

theorem normTok_shape (cs : List Char) :
    normTok cs = [] ∨
      ∃ ms k, ms.Sublist canonOrder ∧ goodTok k ∧
        normTok cs = joinPlus (ms ++ [k]) := by
  by_cases hcs : cs = []
  · left
    simp [normTok, hcs]
  · rcases hp : partsTok cs with _ | ⟨p, ps⟩
    · left
      rw [normTok, if_neg hcs, hp]
      rfl
    · right
      have hne : partsTok cs ≠ [] := by rw [hp]; simp
      refine ⟨canonOrder.filter
        (fun m => m ∈ (partsTok cs).dropLast.filter (fun q => q ∈ canonOrder)),
        (partsTok cs).getLast hne, List.filter_sublist _, ?_, ?_⟩
      · exact partsTok_good _ (List.getLast_mem hne)
      · rw [normTok, if_neg hcs, normParts_eq hne]

theorem normTok_fixedpt {ms : List (List Char)} {k : List Char}
    (hms : ms.Sublist canonOrder) (hk : goodTok k) :
    normTok (joinPlus (ms ++ [k])) = joinPlus (ms ++ [k]) := by
  obtain ⟨hkne, hkp, hkt, hkl⟩ := hk
  have hmsgood : ∀ m ∈ ms, goodTok m := fun m hm => canonOrder_good m (hms.subset hm)
  have hLp : ∀ t ∈ ms ++ [k], '+' ∉ t := by
    intro t ht
    rcases List.mem_append.mp ht with h | h
    · exact (hmsgood t h).2.1
    · rw [List.mem_singleton] at h
      exact h ▸ hkp
  have hLne : ms ++ [k] ≠ [] := by simp
  have hsp : splitPlus (joinPlus (ms ++ [k])) = ms ++ [k] := splitPlus_joinPlus hLne hLp
  have hcsne : joinPlus (ms ++ [k]) ≠ [] := joinPlus_concat_ne_nil ms hkne
  have hfix : ∀ t ∈ ms ++ [k], trimTok t = t ∧ lowerTok t = t ∧ t ≠ [] := by
    intro t ht
    rcases List.mem_append.mp ht with h | h
    · exact ⟨(hmsgood t h).2.2.1, (hmsgood t h).2.2.2, (hmsgood t h).1⟩
    · rw [List.mem_singleton] at h
      subst h
      exact ⟨hkt, hkl, hkne⟩
  have hparts : partsTok (joinPlus (ms ++ [k])) = ms ++ [k] := by
    unfold partsTok
    rw [hsp]
    have hfil : (ms ++ [k]).filter (fun p => trimTok p ≠ []) = ms ++ [k] := by
      rw [List.filter_eq_self]
      intro a ha
      have h2 := hfix a ha
      simp [h2.1, h2.2.2]
    rw [hfil]
    have hmap : ∀ a ∈ ms ++ [k], lowerTok (trimTok a) = id a := by
      intro a ha
      have h2 := hfix a ha
      rw [h2.1, h2.2.1, id]
    rw [List.map_congr_left hmap, List.map_id]
  rw [normTok, if_neg hcsne, hparts, normParts_eq hLne, List.dropLast_concat,
    List.getLast_concat]
  have hms2 : ms.filter (fun q => q ∈ canonOrder) = ms := by
    rw [List.filter_eq_self]
    intro a ha
    simp [hms.subset ha]
  rw [hms2, filter_mem_of_sublist_nodup canonOrder_nodup hms]

theorem normTok_idem (cs : List Char) : normTok (normTok cs) = normTok cs := by
  rcases normTok_shape cs with h | ⟨ms, k, hms, hk, h⟩
  · rw [h]
    rfl
  · rw [h, normTok_fixedpt hms hk]

theorem normalize_shortcut_idem (s : String) :
    normalize_shortcut (normalize_shortcut s) = normalize_shortcut s := by
  unfold normalize_shortcut
  have hd : (⟨normTok s.data⟩ : String).data = normTok s.data := rfl
  rw [hd, normTok_idem]

/-- Claim C3: for every input string, normalize_shortcut produces the
    canonical form — zero or more modifiers drawn from _CANON_ORDER in that
    fixed order, lower-cased, joined with '+', followed by exactly one key
    token; empty or unparseable input (no surviving part) normalizes to the
    empty string; and in particular normalize("Alt+Shift+F1") =
    normalize("shift+alt+f1") = "alt+shift+f1". -/
theorem normalize_shortcut_canonical :
    normalize_shortcut "Alt+Shift+F1" = "alt+shift+f1" ∧
    normalize_shortcut "shift+alt+f1" = "alt+shift+f1" ∧
    normalize_shortcut "" = "" ∧
    (∀ s : String, partsTok s.data = [] → normalize_shortcut s = "") ∧
    (∀ s : String, normalize_shortcut s = "" ∨
      ∃ ms k, ms.Sublist canonOrder ∧ k ≠ [] ∧ '+' ∉ k ∧ lowerTok k = k ∧
        (normalize_shortcut s).data = joinPlus (ms ++ [k])) := by
  refine ⟨by decide, by decide, by decide, ?_, ?_⟩
  · intro s hp
    unfold normalize_shortcut normTok
    rw [hp]
    split
    all_goals rfl
  · intro s
    rcases normTok_shape s.data with h | ⟨ms, k, hms, hk, h⟩
    · left
      unfold normalize_shortcut
      rw [h]
    · right
      exact ⟨ms, k, hms, hk.1, hk.2.1, hk.2.2.2, h⟩

/-- Witness for C3 at concrete inputs: " + + " has no surviving parts and
    normalizes to the empty string. -/
theorem normalize_shortcut_canonical_witness :
    normalize_shortcut " + + " = "" :=
  normalize_shortcut_canonical.2.2.2.1 " + + " (by decide)

/-- Claim C10: normalize_shortcut is idempotent — normalizing an
    already-normalized combo string changes nothing. -/
theorem normalize_shortcut_idempotent (s : String) :
    normalize_shortcut (normalize_shortcut s) = normalize_shortcut s :=
  normalize_shortcut_idem s


theorem find?_mapped_dictInsert {c v : String} (m : List (String × String))
    (hany : m.any (fun e => e.1 = c) = true) :
    ((m.map (fun e => if e.1 = c then (c, v) else e)).find?
      (fun e => e.1 = c)) = some (c, v) := by
  induction m with
  | nil => simp at hany
  | cons e es ih =>
    by_cases he : e.1 = c
    · simp only [List.map_cons, if_pos he, List.find?_cons]
      simp
    · simp only [List.map_cons, if_neg he, List.find?_cons]
      have hd : (decide (e.1 = c)) = false := by simp [he]
      rw [hd]
      simp only [List.any_cons] at hany
      have : es.any (fun e => decide (e.1 = c)) = true := by
        rcases Bool.or_eq_true_iff.mp hany with h | h
        · exact absurd (of_decide_eq_true h) he
        · exact h
      exact ih this

theorem find?_append_dictInsert {c v : String} (m : List (String × String))
    (hany : m.any (fun e => e.1 = c) = false) :
    ((m ++ [(c, v)]).find? (fun e => e.1 = c)) = some (c, v) := by
  induction m with
  | nil => simp
  | cons e es ih =>
    simp only [List.any_cons, Bool.or_eq_false_iff] at hany
    rw [List.cons_append, List.find?_cons]
    rw [show (decide (e.1 = c)) = false from hany.1]
    exact ih hany.2

theorem lookupA_dictInsert_self (m : List (String × String)) (c v : String) :
    lookupA (dictInsert m c v) c = some v := by
  unfold dictInsert lookupA
  rcases hany : m.any (fun e => e.1 = c)
  · rw [if_neg Bool.false_ne_true]
    rw [find?_append_dictInsert m hany]
    rfl
  · rw [if_pos rfl]
    rw [find?_mapped_dictInsert m hany]
    rfl

theorem findWin_earliest {c : String} {i : Nat} (pre post : List (String × Nat))
    (hpre : ∀ p ∈ pre, p.1 ≠ c) :
    findWin (pre ++ (c, i) :: post) c = some (MatchRes.window i) := by
  induction pre with
  | nil =>
    unfold findWin
    rw [List.nil_append, List.find?_cons]
    simp
  | cons e es ih =>
    unfold findWin at ih ⊢
    rw [List.cons_append, List.find?_cons]
    have he : e.1 ≠ c := hpre e (List.mem_cons_self e es)
    have hne : ¬ (c = e.1) := fun h => he h.symm
    rw [show (decide (c = e.1)) = false from by simp [hne]]
    exact ih (fun p hp => hpre p (List.mem_cons_of_mem e hp))

/-- Claim C4 (amended): matchCombo returns an action match, a window-index
    match, or no match; the empty combo never matches; lookup checks the
    action table first and then the window-index bindings linearly in
    configuration order, so among window-index bindings sharing a combo the
    earliest declaration wins and an action always beats a window binding;
    but within the action table a Python dict assignment overwrites, so of
    two action keys sharing one combo the later one in the fixed rebuild
    order wins. -/
theorem matchCombo_resolution :
    (∀ h : SHandler, h.matchCombo "" = none) ∧
    (∀ (h : SHandler) (c : String) (r : MatchRes), h.matchCombo c = some r →
      (∃ a, r = MatchRes.action a) ∨ (∃ n, r = MatchRes.window n)) ∧
    (∀ (h : SHandler) (c a : String), lookupA h.amap c = some a → c ≠ "" →
      h.matchCombo c = some (MatchRes.action a)) ∧
    (∀ (h : SHandler) (c : String), lookupA h.amap c = none → c ≠ "" →
      h.matchCombo c = findWin h.windows c) ∧
    (∀ (h : SHandler) (c : String) (i : Nat) (pre post : List (String × Nat)),
      h.windows = pre ++ (c, i) :: post → (∀ p ∈ pre, p.1 ≠ c) →
      lookupA h.amap c = none → c ≠ "" →
      h.matchCombo c = some (MatchRes.window i)) ∧
    (∀ (m : List (String × String)) (c v : String),
      lookupA (dictInsert m c v) c = some v) := by
  refine ⟨?_, ?_, ?_, ?_, ?_, lookupA_dictInsert_self⟩
  · intro h
    rfl
  · intro h c r _
    rcases r with a | n
    · exact Or.inl ⟨a, rfl⟩
    · exact Or.inr ⟨n, rfl⟩
  · intro h c a hl hc
    unfold SHandler.matchCombo
    rw [if_neg hc, hl]
  · intro h c hl hc
    unfold SHandler.matchCombo
    rw [if_neg hc, hl]
  · intro h c i pre post hw hpre hl hc
    unfold SHandler.matchCombo
    rw [if_neg hc, hl, hw]
    exact findWin_earliest pre post hpre

/-- Witness for C4 (amended) at a concrete handler: with two window keys
    both bound to Alt+F1, the earliest declaration (index 0) wins. -/
theorem matchCombo_resolution_witness :
    (buildHandler { window_keys := ["Alt+F1", "Alt+F1"] }).matchCombo "alt+f1" =
      some (MatchRes.window 0) :=
  matchCombo_resolution.2.2.2.2.1
    (buildHandler { window_keys := ["Alt+F1", "Alt+F1"] }) "alt+f1" 0 []
    [("alt+f1", 1)] (by decide) (by decide) (by decide) (by decide)

/-- Counterexample to C4 as stated: in the configuration where both prev
    and next are bound to alt+a, match returns the action of the later
    declaration ("next"), not the earliest ("prev") — dict overwrite in
    _rebuild, not first-wins. -/
theorem matchCombo_duplicate_counterexample :
    (buildHandler dupConfig).matchCombo "alt+a" ≠ some (MatchRes.action "prev") ∧
    (buildHandler dupConfig).matchCombo "alt+a" = some (MatchRes.action "next") := by
  exact ⟨by decide, by decide⟩

theorem focusList_append (a b : List BEvent) :
    focusList (a ++ b) = focusList a ++ focusList b := by
  unfold focusList
  rw [List.filterMap_append]

theorem focusList_sweepSteps_payload (p q : String) (fault : Nat → Bool)
    (exclude : Option Nat) (ts : List Nat) :
    focusList (sweepSteps p fault exclude ts).1 =
      focusList (sweepSteps q fault exclude ts).1 := by
  induction ts with
  | nil => rfl
  | cons w rest ih =>
    rw [sweepSteps, sweepSteps]
    split
    · exact ih
    · split
      · rfl
      · simp only [focusList, List.filterMap_cons]
        simp only [focusList] at ih
        rw [ih]

theorem sweepSteps_focus_front (p : String) (fault : Nat → Bool)
    (exclude : Option Nat) (ts : List Nat) :
    focusList (sweepSteps p fault exclude ts).1 <+:
      ts.filter (fun w => !(excludedHit exclude w)) := by
  induction ts with
  | nil => simp [sweepSteps, focusList]
  | cons w rest ih =>
    rw [sweepSteps, List.filter_cons]
    split
    · next hex =>
      rw [show (!(excludedHit exclude w)) = false from by simp [hex]]
      simp only [Bool.false_eq_true, if_false]
      exact ih
    · next hex =>
      have hb : excludedHit exclude w = false := Bool.eq_false_iff.mpr hex
      rw [show (!(excludedHit exclude w)) = true from by simp [hb]]
      simp only [if_true]
      split
      · show focusList [BEvent.focus w] <+: _
        simp only [focusList, List.filterMap_cons]
        simp
      · simp only [focusList, List.filterMap_cons]
        exact (List.prefix_cons_inj w).mpr ih

theorem sweepSteps_focus_nofault (p : String) (fault : Nat → Bool)
    (exclude : Option Nat) (ts : List Nat)
    (hf : ∀ w ∈ ts, fault w = false) :
    focusList (sweepSteps p fault exclude ts).1 =
      ts.filter (fun w => !(excludedHit exclude w)) := by
  induction ts with
  | nil => rfl
  | cons w rest ih =>
    have hw : fault w = false := hf w (List.mem_cons_self w rest)
    have hrest : ∀ x ∈ rest, fault x = false :=
      fun x hx => hf x (List.mem_cons_of_mem w hx)
    rw [sweepSteps, List.filter_cons]
    split
    · next hex =>
      rw [show (!(excludedHit exclude w)) = false from by simp [hex]]
      simp only [Bool.false_eq_true, if_false]
      exact ih hrest
    · next hex =>
      have hb : excludedHit exclude w = false := Bool.eq_false_iff.mpr hex
      rw [show (!(excludedHit exclude w)) = true from by simp [hb]]
      simp only [if_true, hw, Bool.false_eq_true, if_false]
      simp only [focusList, List.filterMap_cons]
      simp only [focusList] at ih
      exact congrArg (fun l => w :: l) (ih hrest)

/-- Claim C1: for every non-empty target list, exclude value, and truthy
    snapshotted active window a, the focus-sweep send (send_key or
    send_literal) focuses a sweep-visited list that follows the targets
    list in order (skipping exclude) — the whole filtered list when no
    injection faults — and the final activate call is always for the
    snapshotted pre-sweep window a, even when injection to some target
    raises mid-sweep. -/
theorem focusSweep_order_and_restore (seq ch : String) (targets : List Nat)
    (exclude : Option Nat) (a : Nat) (fault : Nat → Bool)
    (_hne : targets ≠ []) (ha : a ≠ 0) :
    (∃ visited,
      visited <+: targets.filter (fun w => !(excludedHit exclude w)) ∧
      ((∀ w ∈ targets, fault w = false) →
        visited = targets.filter (fun w => !(excludedHit exclude w))) ∧
      focusList (sendKeyFocusSweep seq targets exclude (some a) fault).1 =
        visited ++ [a] ∧
      focusList (sendLiteralFocusSweep ch targets exclude (some a) fault).1 =
        visited ++ [a]) ∧
    (focusList (sendKeyFocusSweep seq targets exclude (some a) fault).1).getLast? =
      some a ∧
    (focusList (sendLiteralFocusSweep ch targets exclude (some a) fault).1).getLast? =
      some a := by
  have hkey : (sendKeyFocusSweep seq targets exclude (some a) fault).1 =
      (sweepSteps seq fault exclude targets).1 ++ [BEvent.focus a] := by
    unfold sendKeyFocusSweep focusSweepTrace
    dsimp only
    rw [if_pos ha]
  have hlit : (sendLiteralFocusSweep ch targets exclude (some a) fault).1 =
      (sweepSteps ch fault exclude targets).1 ++ [BEvent.focus a] := by
    unfold sendLiteralFocusSweep focusSweepTrace
    dsimp only
    rw [if_pos ha]
  have hfa : focusList [BEvent.focus a] = [a] := rfl
  have hkl : focusList (sendKeyFocusSweep seq targets exclude (some a) fault).1 =
      focusList (sweepSteps seq fault exclude targets).1 ++ [a] := by
    rw [hkey, focusList_append, hfa]
  have hll : focusList (sendLiteralFocusSweep ch targets exclude (some a) fault).1 =
      focusList (sweepSteps seq fault exclude targets).1 ++ [a] := by
    rw [hlit, focusList_append, hfa,
      focusList_sweepSteps_payload ch seq fault exclude targets]
  refine ⟨⟨focusList (sweepSteps seq fault exclude targets).1,
    sweepSteps_focus_front seq fault exclude targets,
    fun hf => sweepSteps_focus_nofault seq fault exclude targets hf,
    hkl, hll⟩, ?_, ?_⟩
  · rw [hkl, List.getLast?_concat]
  · rw [hll, List.getLast?_concat]

/-- Witness for C1: a three-target sweep with a fault injected at the
    middle target still restores focus to the snapshot window 7 last. -/
theorem focusSweep_order_and_restore_witness :
    (∃ visited,
      visited <+: List.filter (fun w => !(excludedHit (some 7) w)) [1, 2, 3] ∧
      ((∀ w ∈ [1, 2, 3], (fun x => decide (x = 2)) w = false) →
        visited = List.filter (fun w => !(excludedHit (some 7) w)) [1, 2, 3]) ∧
      focusList (sendKeyFocusSweep "x" [1, 2, 3] (some 7) (some 7)
        (fun x => decide (x = 2))).1 = visited ++ [7] ∧
      focusList (sendLiteralFocusSweep "g" [1, 2, 3] (some 7) (some 7)
        (fun x => decide (x = 2))).1 = visited ++ [7]) ∧
    (focusList (sendKeyFocusSweep "x" [1, 2, 3] (some 7) (some 7)
      (fun x => decide (x = 2))).1).getLast? = some 7 ∧
    (focusList (sendLiteralFocusSweep "g" [1, 2, 3] (some 7) (some 7)
      (fun x => decide (x = 2))).1).getLast? = some 7 :=
  focusSweep_order_and_restore "x" "g" [1, 2, 3] (some 7) 7
    (fun x => decide (x = 2)) (by decide) (by decide)

theorem onPress_ignored_if_suppressed {s : CoreState} (k : RawKey)
    (active : Option Nat) (h : s.suppress ≠ 0) :
    onPress s k active = (s, []) := by
  unfold onPress
  rcases hr : s.running
  · simp
  · simp [h]

theorem onPress_not_running {s : CoreState} (k : RawKey) (active : Option Nat)
    (h : s.running = false) : onPress s k active = (s, []) := by
  unfold onPress
  simp [h]

theorem onPress_modifier {s : CoreState} (k : RawKey) (active : Option Nat)
    (hr : s.running = true) (hs : s.suppress = 0)
    (hm : decodeName k ∈ modNames) :
    onPress s k active = (trackPressSets s k (decodeName k), []) := by
  unfold onPress
  simp [hr, hs, hm, stableNameForSets]

theorem onPress_swallow_repeat {s : CoreState} (k : RawKey) (active : Option Nat)
    (hr : s.running = true) (hs : s.suppress = 0)
    (hm : decodeName k ∉ modNames) (hp : decodeName k ∈ s.pressedNames) :
    onPress s k active = (s, []) := by
  unfold onPress
  simp [hr, hs, hm, hp, stableNameForSets]

theorem onPress_focus_gate {s : CoreState} (k : RawKey) (active : Option Nat)
    (hr : s.running = true) (hs : s.suppress = 0)
    (hm : decodeName k ∉ modNames) (hp : decodeName k ∉ s.pressedNames)
    (hg : activeIn active s.wins = false) :
    onPress s k active = (trackPressSets s k (decodeName k), []) := by
  unfold onPress
  simp [hr, hs, hm, hp, stableNameForSets, trackPressSets, hg]

theorem onPress_dispatch {s : CoreState} (k : RawKey) (active : Option Nat)
    (m : MatchRes)
    (hr : s.running = true) (hs : s.suppress = 0)
    (hm : decodeName k ∉ modNames) (hp : decodeName k ∉ s.pressedNames)
    (hg : activeIn active s.wins = true)
    (hmt : SHandler.matchCombo s.handler
      (comboNow (altHeld s.currentKeys) (ctrlHeld s.currentKeys)
        (shiftHeld s.currentKeys) (decodeName k)) = some m) :
    onPress s k active =
      (match m with
       | MatchRes.action a =>
         (execActionState (trackPressSets s k (decodeName k)) a,
          [OutCall.execAction a])
       | MatchRes.window n =>
         (trackPressSets s k (decodeName k), focusIndexCalls s.wins n)) := by
  unfold onPress
  simp [hr, hs, hm, hp, stableNameForSets, trackPressSets, hg, hmt]
  rcases m with a | n <;> rfl

theorem onPress_running_eq (s : CoreState) (k : RawKey) (a : Option Nat) :
    (onPress s k a).1.running = s.running := by
  unfold onPress
  repeat' split
  all_goals simp [trackPressSets, execActionState, applyGuardNet]
  all_goals repeat' split
  all_goals rfl

theorem onPress_calls_le_one (s : CoreState) (k : RawKey) (a : Option Nat) :
    ((onPress s k a).2.filter isBroadcastCall).length ≤ 1 := by
  unfold onPress
  repeat' split
  all_goals simp [isBroadcastCall, focusIndexCalls]
  all_goals repeat' split
  all_goals simp [isBroadcastCall]

theorem onPress_suppress_zero {s : CoreState} (k : RawKey) (a : Option Nat)
    (h : s.suppress = 0) : (onPress s k a).1.suppress = 0 := by
  unfold onPress
  repeat' split
  all_goals simp [trackPressSets, execActionState, applyGuardNet, h,
    decSuppress, incSuppress]
  all_goals repeat' split
  all_goals simp [h]

set_option maxHeartbeats 1000000 in
theorem onPress_pressedNames_cases (s : CoreState) (k : RawKey) (a : Option Nat) :
    (onPress s k a).1.pressedNames = s.pressedNames ∨
    (onPress s k a).1.pressedNames =
      (if decodeName k = "" then s.pressedNames
       else insertName s.pressedNames (decodeName k)) := by
  unfold onPress
  repeat' split
  all_goals try (left; rfl)
  all_goals simp only [trackPressSets, execActionState, applyGuardNet,
    stableNameForSets]
  all_goals repeat' split
  all_goals simp_all

theorem insertName_mem_self (l : List String) (y : String) :
    y ∈ insertName l y := by
  unfold insertName
  split
  · next h => exact h
  · exact List.mem_cons_self y l

theorem insertName_mem_of {l : List String} {x : String} (y : String)
    (h : x ∈ l) : x ∈ insertName l y := by
  unfold insertName
  split
  · exact h
  · exact List.mem_cons_of_mem y h

theorem onPress_pressed_mono {s : CoreState} (k : RawKey) (a : Option Nat)
    {x : String} (h : x ∈ s.pressedNames) :
    x ∈ (onPress s k a).1.pressedNames := by
  rcases onPress_pressedNames_cases s k a with hc | hc <;> rw [hc]
  · exact h
  · split
    · exact h
    · exact insertName_mem_of _ h

set_option maxHeartbeats 1000000 in
theorem onPress_pressedNames_tracked {s : CoreState} (k : RawKey) (a : Option Nat)
    (hr : s.running = true) (hs : s.suppress = 0)
    (hm : decodeName k ∉ modNames) (hp : decodeName k ∉ s.pressedNames) :
    (onPress s k a).1.pressedNames =
      (if decodeName k = "" then s.pressedNames
       else insertName s.pressedNames (decodeName k)) := by
  unfold onPress
  simp only [hr, hs, stableNameForSets, hm, hp]
  repeat' split
  all_goals simp_all [trackPressSets, execActionState, applyGuardNet,
    stableNameForSets]
  all_goals repeat' split
  all_goals rfl

theorem onPress_pressed_after {s : CoreState} (k : RawKey) (a : Option Nat)
    (hr : s.running = true) (hs : s.suppress = 0) (hn : decodeName k ≠ "") :
    decodeName k ∈ (onPress s k a).1.pressedNames := by
  by_cases hm : decodeName k ∈ modNames
  · rw [onPress_modifier k a hr hs hm]
    simp only [trackPressSets, stableNameForSets]
    rw [if_pos hn]
    exact insertName_mem_self _ _
  · by_cases hp : decodeName k ∈ s.pressedNames
    · rw [onPress_swallow_repeat k a hr hs hm hp]
      exact hp
    · rw [onPress_pressedNames_tracked k a hr hs hm hp, if_neg (fun h => hn h)]
      exact insertName_mem_self _ _

theorem onPress_swallowed_when_pressed {s : CoreState} {nm : String}
    (k : RawKey) (a : Option Nat)
    (hr : s.running = true) (hs : s.suppress = 0)
    (hk : decodeName k = nm) (hpres : nm ∈ s.pressedNames) :
    (onPress s k a).2 = [] := by
  by_cases hm : decodeName k ∈ modNames
  · rw [onPress_modifier k a hr hs hm]
  · rw [onPress_swallow_repeat k a hr hs hm (hk ▸ hpres)]

theorem runPresses_all_swallowed {nm : String} (s : CoreState)
    (evs : List (RawKey × Option Nat))
    (hr : s.running = true) (hs : s.suppress = 0)
    (hpres : nm ∈ s.pressedNames) (hk : ∀ e ∈ evs, decodeName e.1 = nm) :
    ∀ l ∈ (runPresses s evs).2, l = [] := by
  induction evs generalizing s with
  | nil =>
    intro l hl
    simp [runPresses] at hl
  | cons e es ih =>
    intro l hl
    rw [runPresses] at hl
    simp only [List.mem_cons] at hl
    rcases hl with hl | hl
    · rw [hl]
      exact onPress_swallowed_when_pressed e.1 e.2 hr hs
        (hk e (List.mem_cons_self e es)) hpres
    · exact ih (onPress s e.1 e.2).1
        ((onPress_running_eq s e.1 e.2).symm ▸ hr)
        (onPress_suppress_zero e.1 e.2 hs)
        (onPress_pressed_mono e.1 e.2 hpres)
        (fun x hx => hk x (List.mem_cons_of_mem e hx)) l hl

/-- Claim C2: for every key decoding to one stable name, a run of
    consecutive press events with no intervening release causes at most one
    Broadcaster call, and every press after the first produces no external
    call at all (the stable name is already in the pressed-name set, or the
    key is a pure modifier). -/
theorem repeat_press_at_most_one_broadcast (s : CoreState) (nm : String)
    (evs : List (RawKey × Option Nat))
    (hr : s.running = true) (hs : s.suppress = 0) (hn : nm ≠ "")
    (hk : ∀ e ∈ evs, decodeName e.1 = nm) :
    broadcastCallCount (runPresses s evs).2 ≤ 1 ∧
    ∀ l ∈ (runPresses s evs).2.drop 1, l = [] := by
  rcases evs with _ | ⟨e, es⟩
  · exact ⟨by simp [runPresses, broadcastCallCount], by simp [runPresses]⟩
  · have hd : decodeName e.1 = nm := hk e (List.mem_cons_self e es)
    have hrest : ∀ l ∈ (runPresses (onPress s e.1 e.2).1 es).2, l = [] :=
      runPresses_all_swallowed (onPress s e.1 e.2).1 es
        ((onPress_running_eq s e.1 e.2).symm ▸ hr)
        (onPress_suppress_zero e.1 e.2 hs)
        (hd ▸ onPress_pressed_after e.1 e.2 hr hs (hd.symm ▸ hn))
        (fun x hx => hk x (List.mem_cons_of_mem e hx))
    constructor
    · rw [runPresses]
      simp only [broadcastCallCount, List.map_cons, List.sum_cons]
      have h0 : ((runPresses (onPress s e.1 e.2).1 es).2.map
          (fun l => (l.filter isBroadcastCall).length)).sum = 0 := by
        rw [List.sum_eq_zero]
        intro x hx
        rcases List.mem_map.mp hx with ⟨l, hl, rfl⟩
        rw [hrest l hl]
        rfl
      rw [h0, Nat.add_zero]
      exact onPress_calls_le_one s e.1 e.2
    · rw [runPresses]
      simp only [List.drop_succ_cons, List.drop_zero]
      exact hrest

theorem onPress_nomatch_off {s : CoreState} (k : RawKey) (active : Option Nat)
    (hr : s.running = true) (hs : s.suppress = 0)
    (hm : decodeName k ∉ modNames) (hp : decodeName k ∉ s.pressedNames)
    (hg : activeIn active s.wins = true)
    (hmt : SHandler.matchCombo s.handler
      (comboNow (altHeld s.currentKeys) (ctrlHeld s.currentKeys)
        (shiftHeld s.currentKeys) (decodeName k)) = none)
    (hb : s.broadcastEnabled = false) :
    onPress s k active = (trackPressSets s k (decodeName k), []) := by
  unfold onPress
  simp [hr, hs, hm, hp, stableNameForSets, trackPressSets, hg, hmt, hb]

theorem onPress_nomatch_inhibited {s : CoreState} (k : RawKey) (active : Option Nat)
    (hr : s.running = true) (hs : s.suppress = 0)
    (hm : decodeName k ∉ modNames) (hp : decodeName k ∉ s.pressedNames)
    (hg : activeIn active s.wins = true)
    (hmt : SHandler.matchCombo s.handler
      (comboNow (altHeld s.currentKeys) (ctrlHeld s.currentKeys)
        (shiftHeld s.currentKeys) (decodeName k)) = none)
    (hb : s.broadcastEnabled = true)
    (hi : decodeName k ∈ s.inhibitKeys ∨
      comboNow (altHeld s.currentKeys) (ctrlHeld s.currentKeys)
        (shiftHeld s.currentKeys) (decodeName k) ∈ s.inhibitKeys) :
    onPress s k active = (trackPressSets s k (decodeName k), []) := by
  unfold onPress
  simp [hr, hs, hm, hp, stableNameForSets, trackPressSets, hg, hmt, hb, hi]

theorem onPress_nomatch_literal {s : CoreState} (k : RawKey) (active : Option Nat)
    (hr : s.running = true) (hs : s.suppress = 0)
    (hm : decodeName k ∉ modNames) (hp : decodeName k ∉ s.pressedNames)
    (hg : activeIn active s.wins = true)
    (hmt : SHandler.matchCombo s.handler
      (comboNow (altHeld s.currentKeys) (ctrlHeld s.currentKeys)
        (shiftHeld s.currentKeys) (decodeName k)) = none)
    (hb : s.broadcastEnabled = true)
    (hi : ¬(decodeName k ∈ s.inhibitKeys ∨
      comboNow (altHeld s.currentKeys) (ctrlHeld s.currentKeys)
        (shiftHeld s.currentKeys) (decodeName k) ∈ s.inhibitKeys))
    (hpr : (!(altHeld s.currentKeys || ctrlHeld s.currentKeys ||
      shiftHeld s.currentKeys) && isPrintableName (decodeName k)) = true) :
    onPress s k active =
      (applyGuardNet (trackPressSets s k (decodeName k)),
       [OutCall.sendLiteral (decodeName k) s.wins active]) := by
  unfold onPress
  simp only [Bool.and_eq_true, Bool.not_eq_true', Bool.or_eq_false_iff] at hpr
  obtain ⟨⟨⟨ha1, ha2⟩, ha3⟩, ha4⟩ := hpr
  rw [ha1, ha2, ha3] at hmt hi
  simp [hr, hs, hm, hp, stableNameForSets, trackPressSets, hg, hmt, hb,
    not_or.mp hi, ha1, ha2, ha3, ha4, applyGuardNet]

theorem onPress_nomatch_keyseq {s : CoreState} (k : RawKey) (active : Option Nat)
    (hr : s.running = true) (hs : s.suppress = 0)
    (hm : decodeName k ∉ modNames) (hp : decodeName k ∉ s.pressedNames)
    (hg : activeIn active s.wins = true)
    (hmt : SHandler.matchCombo s.handler
      (comboNow (altHeld s.currentKeys) (ctrlHeld s.currentKeys)
        (shiftHeld s.currentKeys) (decodeName k)) = none)
    (hb : s.broadcastEnabled = true)
    (hi : ¬(decodeName k ∈ s.inhibitKeys ∨
      comboNow (altHeld s.currentKeys) (ctrlHeld s.currentKeys)
        (shiftHeld s.currentKeys) (decodeName k) ∈ s.inhibitKeys))
    (hpr : (!(altHeld s.currentKeys || ctrlHeld s.currentKeys ||
      shiftHeld s.currentKeys) && isPrintableName (decodeName k)) = false) :
    onPress s k active =
      (applyGuardNet (trackPressSets s k (decodeName k)),
       [OutCall.sendKey (seqFor (altHeld s.currentKeys) (ctrlHeld s.currentKeys)
          (shiftHeld s.currentKeys) (decodeName k)) s.wins active]) := by
  unfold onPress
  simp only [hr, hs, stableNameForSets]
  rw [if_neg (by simp), if_neg (by simp [hs]), if_neg hm, if_neg hp]
  simp only [trackPressSets, stableNameForSets]
  rw [if_neg (by simp [hg])]
  simp only [hmt]
  rw [if_neg (by simp [hb]), if_neg hi,
    if_neg (fun hcond => Bool.false_ne_true (hpr ▸ hcond))]

theorem isBroadcastCall_focusIndexCalls {c : OutCall} {wins : List Nat} {n : Nat}
    (hc : c ∈ focusIndexCalls wins n) : isBroadcastCall c = false := by
  unfold focusIndexCalls at hc
  rcases hget : wins.get? n with _ | w
  · rw [hget] at hc
    simp at hc
  · rw [hget] at hc
    simp only [List.mem_singleton] at hc
    rw [hc]
    rfl

/-- Claim C5: whenever the canonical combo of a key-down matches the
    shortcut table (an Action or a WindowIndex), the press handler emits
    only the dispatch call (action execution or indexed-window activation)
    and no Broadcaster call for that keystroke. -/
theorem matched_shortcut_no_broadcast (s : CoreState) (k : RawKey)
    (active : Option Nat) (m : MatchRes)
    (hr : s.running = true) (hs : s.suppress = 0)
    (hm : decodeName k ∉ modNames) (hp : decodeName k ∉ s.pressedNames)
    (hg : activeIn active s.wins = true)
    (hmt : SHandler.matchCombo s.handler
      (comboNow (altHeld s.currentKeys) (ctrlHeld s.currentKeys)
        (shiftHeld s.currentKeys) (decodeName k)) = some m) :
    (onPress s k active).2 =
      (match m with
       | MatchRes.action a => [OutCall.execAction a]
       | MatchRes.window n => focusIndexCalls s.wins n) ∧
    (∀ c ∈ (onPress s k active).2, isBroadcastCall c = false) := by
  have h := onPress_dispatch k active m hr hs hm hp hg hmt
  constructor
  · rcases m with a | n
    · rw [h]
    · rw [h]
  · intro c hc
    rcases m with a | n
    · rw [h] at hc
      simp only [List.mem_singleton] at hc
      rw [hc]
      rfl
    · rw [h] at hc
      exact isBroadcastCall_focusIndexCalls hc

/-- Witness for C5: with the default shortcut table, pressing d with alt
    held dispatches the next action and makes no Broadcaster call. -/
theorem matched_shortcut_no_broadcast_witness :
    (onPress
      { running := true, suppress := 0, currentKeys := [RawKey.special "alt"],
        pressedNames := ["alt"], wins := [1, 2, 3], inhibitKeys := [],
        broadcastEnabled := true, overlayEnabled := true, bEnabled := true,
        bMode := BMode.focus_sweep, handler := buildHandler dupConfig }
      (RawKey.code 'a') (some 1)).2 =
      [OutCall.execAction "next"] ∧
    (∀ c ∈ (onPress
      { running := true, suppress := 0, currentKeys := [RawKey.special "alt"],
        pressedNames := ["alt"], wins := [1, 2, 3], inhibitKeys := [],
        broadcastEnabled := true, overlayEnabled := true, bEnabled := true,
        bMode := BMode.focus_sweep, handler := buildHandler dupConfig }
      (RawKey.code 'a') (some 1)).2, isBroadcastCall c = false) := by
  have h := matched_shortcut_no_broadcast
    { running := true, suppress := 0, currentKeys := [RawKey.special "alt"],
      pressedNames := ["alt"], wins := [1, 2, 3], inhibitKeys := [],
      broadcastEnabled := true, overlayEnabled := true, bEnabled := true,
      bMode := BMode.focus_sweep, handler := buildHandler dupConfig }
    (RawKey.code 'a') (some 1) (MatchRes.action "next")
    (by decide) (by decide) (by decide) (by decide) (by decide) (by decide)
  exact h

/-- Claim C8: the injection guard increments its counter on entry and
    decrements it on every exit path, including when the guarded body
    raises, so after the scope the counter equals its pre-entry value and
    is never negative; and every press event arriving while the counter is
    positive is ignored entirely (state unchanged, no calls). -/
theorem injection_guard_counter (x : Int) (r : Bool) (s : CoreState)
    (k : RawKey) (active : Option Nat)
    (hx : 0 ≤ x) (hpos : 0 < s.suppress) :
    (guardRun x r).1 = x ∧ 0 ≤ (guardRun x r).1 ∧ 0 < incSuppress x ∧
    onPress s k active = (s, []) := by
  have h1 : (guardRun x r).1 = x := by
    unfold guardRun decSuppress incSuppress
    simp only [Int.add_sub_cancel]
    exact max_eq_right hx
  exact ⟨h1, by rw [h1]; exact hx, by unfold incSuppress; omega,
    onPress_ignored_if_suppressed k active (by omega)⟩

/-- Witness for C8 at counter value 0 and a state with a positive guard. -/
theorem injection_guard_counter_witness :
    (guardRun 0 true).1 = 0 ∧ 0 ≤ (guardRun 0 true).1 ∧ 0 < incSuppress 0 ∧
    onPress
      { running := true, suppress := 1, currentKeys := [], pressedNames := [],
        wins := [1], inhibitKeys := [], broadcastEnabled := true,
        overlayEnabled := true, bEnabled := true, bMode := BMode.focus_sweep,
        handler := buildHandler dupConfig } (RawKey.code 'g') (some 1) =
      ({ running := true, suppress := 1, currentKeys := [], pressedNames := [],
         wins := [1], inhibitKeys := [], broadcastEnabled := true,
         overlayEnabled := true, bEnabled := true, bMode := BMode.focus_sweep,
         handler := buildHandler dupConfig }, []) :=
  injection_guard_counter 0 true
    { running := true, suppress := 1, currentKeys := [], pressedNames := [],
      wins := [1], inhibitKeys := [], broadcastEnabled := true,
      overlayEnabled := true, bEnabled := true, bMode := BMode.focus_sweep,
      handler := buildHandler dupConfig } (RawKey.code 'g') (some 1)
    (by decide) (by decide)

/-- Claim C9: a non-modifier, non-repeat key-down received while the
    active window is not managed only records the press in the two
    tracking sets — no dispatch, no activation, no Broadcaster call, and
    no other state field changes. -/
theorem unmanaged_focus_only_tracks (s : CoreState) (k : RawKey)
    (active : Option Nat)
    (hr : s.running = true) (hs : s.suppress = 0)
    (hm : decodeName k ∉ modNames) (hp : decodeName k ∉ s.pressedNames)
    (hg : activeIn active s.wins = false) :
    onPress s k active =
      ({ s with
         currentKeys := insertKey s.currentKeys k,
         pressedNames :=
           if decodeName k ≠ "" then insertName s.pressedNames (decodeName k)
           else s.pressedNames }, []) :=
  onPress_focus_gate k active hr hs hm hp hg

/-- Witness for C9: pressing g while an unmanaged window is focused only
    records the press. -/
theorem unmanaged_focus_only_tracks_witness :
    onPress
      { running := true, suppress := 0, currentKeys := [], pressedNames := [],
        wins := [1, 2, 3], inhibitKeys := [], broadcastEnabled := true,
        overlayEnabled := true, bEnabled := true, bMode := BMode.focus_sweep,
        handler := buildHandler dupConfig } (RawKey.code 'g') (some 9) =
      ({ running := true, suppress := 0, currentKeys := [RawKey.code 'g'],
         pressedNames := ["g"], wins := [1, 2, 3], inhibitKeys := [],
         broadcastEnabled := true, overlayEnabled := true, bEnabled := true,
         bMode := BMode.focus_sweep, handler := buildHandler dupConfig }, []) := by
  have h := unmanaged_focus_only_tracks
    { running := true, suppress := 0, currentKeys := [], pressedNames := [],
      wins := [1, 2, 3], inhibitKeys := [], broadcastEnabled := true,
      overlayEnabled := true, bEnabled := true, bMode := BMode.focus_sweep,
      handler := buildHandler dupConfig } (RawKey.code 'g') (some 9)
    (by decide) (by decide) (by decide) (by decide) (by decide)
  rw [h]
  decide

/-- Claim C7: Broadcaster.send_key and send_literal are no-ops (no events,
    no raise) whenever the broadcaster is disabled or the payload is
    empty; and with broadcast_enabled false the press handler makes no
    Broadcaster call for any keystroke while producing exactly the same
    shortcut-dispatch calls as it would with the flag true. -/
theorem broadcaster_disabled_is_noop :
    (∀ (b : BState) (pay : String) (targets : List Nat)
       (exclude activeSnap : Option Nat) (fault : Nat → Bool),
       b.enabled = false ∨ pay = "" →
       Broadcaster.send_key b pay targets exclude activeSnap fault = ([], false) ∧
       Broadcaster.send_literal b pay targets exclude activeSnap fault = ([], false)) ∧
    (∀ (s : CoreState) (k : RawKey) (active : Option Nat),
       s.broadcastEnabled = false →
       (∀ c ∈ (onPress s k active).2, isBroadcastCall c = false) ∧
       dispatchCalls (onPress s k active).2 =
         dispatchCalls (onPress { s with broadcastEnabled := true } k active).2) := by
  constructor
  · intro b pay targets exclude activeSnap fault h
    rcases h with h | h
    · exact ⟨by simp [Broadcaster.send_key, h], by simp [Broadcaster.send_literal, h]⟩
    · exact ⟨by simp [Broadcaster.send_key, h], by simp [Broadcaster.send_literal, h]⟩
  · intro s k active hb
    by_cases hrunp : s.running = true
    case neg =>
      have hrun : s.running = false := by rwa [Bool.not_eq_true] at hrunp
      rw [onPress_not_running k active hrun,
        onPress_not_running (s := { s with broadcastEnabled := true }) k active hrun]
      exact ⟨by simp, rfl⟩
    case pos =>
      have hrun := hrunp
      by_cases hsup : s.suppress = 0
      · by_cases hmod : decodeName k ∈ modNames
        · rw [onPress_modifier k active hrun hsup hmod,
            onPress_modifier (s := { s with broadcastEnabled := true }) k active
              hrun hsup hmod]
          exact ⟨by simp, rfl⟩
        · by_cases hpres : decodeName k ∈ s.pressedNames
          · rw [onPress_swallow_repeat k active hrun hsup hmod hpres,
              onPress_swallow_repeat (s := { s with broadcastEnabled := true })
                k active hrun hsup hmod hpres]
            exact ⟨by simp, rfl⟩
          · by_cases hgatep : activeIn active s.wins = true
            case neg =>
              have hgate : activeIn active s.wins = false := Bool.eq_false_iff.mpr hgatep
              rw [onPress_focus_gate k active hrun hsup hmod hpres hgate,
                onPress_focus_gate (s := { s with broadcastEnabled := true })
                  k active hrun hsup hmod hpres hgate]
              exact ⟨by simp, rfl⟩
            case pos =>
              have hgate := hgatep
              rcases hmt : SHandler.matchCombo s.handler
                (comboNow (altHeld s.currentKeys) (ctrlHeld s.currentKeys)
                  (shiftHeld s.currentKeys) (decodeName k)) with _ | m
              · rw [onPress_nomatch_off k active hrun hsup hmod hpres hgate hmt hb]
                by_cases hin : decodeName k ∈ s.inhibitKeys ∨
                  comboNow (altHeld s.currentKeys) (ctrlHeld s.currentKeys)
                    (shiftHeld s.currentKeys) (decodeName k) ∈ s.inhibitKeys
                · rw [onPress_nomatch_inhibited
                    (s := { s with broadcastEnabled := true }) k active
                    hrun hsup hmod hpres hgate hmt rfl hin]
                  exact ⟨by simp, rfl⟩
                · by_cases hprp : (!(altHeld s.currentKeys || ctrlHeld s.currentKeys ||
                    shiftHeld s.currentKeys) && isPrintableName (decodeName k)) = true
                  case neg =>
                    have hpr := Bool.eq_false_iff.mpr hprp
                    rw [onPress_nomatch_keyseq
                      (s := { s with broadcastEnabled := true }) k active
                      hrun hsup hmod hpres hgate hmt rfl hin hpr]
                    exact ⟨by simp, rfl⟩
                  case pos =>
                    rw [onPress_nomatch_literal
                      (s := { s with broadcastEnabled := true }) k active
                      hrun hsup hmod hpres hgate hmt rfl hin hprp]
                    exact ⟨by simp, rfl⟩
              · rw [onPress_dispatch k active m hrun hsup hmod hpres hgate hmt,
                  onPress_dispatch (s := { s with broadcastEnabled := true })
                    k active m hrun hsup hmod hpres hgate hmt]
                rcases m with a | n
                · refine ⟨?_, rfl⟩
                  intro c hc
                  simp only [List.mem_singleton] at hc
                  rw [hc]
                  rfl
                · refine ⟨?_, rfl⟩
                  intro c hc
                  exact isBroadcastCall_focusIndexCalls hc
      · rw [onPress_ignored_if_suppressed k active hsup,
          onPress_ignored_if_suppressed (s := { s with broadcastEnabled := true })
            k active hsup]
        exact ⟨by simp, rfl⟩

/-- Witness for C7: a disabled broadcaster ignores a send, and a press with
    the flag off makes no Broadcaster call while dispatching as with the
    flag on. -/
theorem broadcaster_disabled_is_noop_witness :
    (Broadcaster.send_key ⟨false, BMode.focus_sweep⟩ "g" [1, 2] (some 1) (some 1)
      (fun _ => false) = ([], false) ∧
     Broadcaster.send_literal ⟨false, BMode.focus_sweep⟩ "g" [1, 2] (some 1) (some 1)
      (fun _ => false) = ([], false)) ∧
    ((∀ c ∈ (onPress
      { running := true, suppress := 0, currentKeys := [], pressedNames := [],
        wins := [1, 2], inhibitKeys := [], broadcastEnabled := false,
        overlayEnabled := true, bEnabled := false, bMode := BMode.focus_sweep,
        handler := buildHandler dupConfig } (RawKey.code 'g') (some 1)).2,
      isBroadcastCall c = false) ∧
     dispatchCalls (onPress
      { running := true, suppress := 0, currentKeys := [], pressedNames := [],
        wins := [1, 2], inhibitKeys := [], broadcastEnabled := false,
        overlayEnabled := true, bEnabled := false, bMode := BMode.focus_sweep,
        handler := buildHandler dupConfig } (RawKey.code 'g') (some 1)).2 =
       dispatchCalls (onPress
      { running := true, suppress := 0, currentKeys := [], pressedNames := [],
        wins := [1, 2], inhibitKeys := [], broadcastEnabled := true,
        overlayEnabled := true, bEnabled := false, bMode := BMode.focus_sweep,
        handler := buildHandler dupConfig }
        (RawKey.code 'g') (some 1)).2) :=
  ⟨broadcaster_disabled_is_noop.1 ⟨false, BMode.focus_sweep⟩ "g" [1, 2] (some 1)
    (some 1) (fun _ => false) (Or.inl rfl),
   broadcaster_disabled_is_noop.2
    { running := true, suppress := 0, currentKeys := [], pressedNames := [],
      wins := [1, 2], inhibitKeys := [], broadcastEnabled := false,
      overlayEnabled := true, bEnabled := false, bMode := BMode.focus_sweep,
      handler := buildHandler dupConfig } (RawKey.code 'g') (some 1) rfl⟩

/-- Witness for C2: three consecutive g presses cause at most one
    Broadcaster call. -/
theorem repeat_press_at_most_one_broadcast_witness :
    broadcastCallCount (runPresses
      { running := true, suppress := 0, currentKeys := [], pressedNames := [],
        wins := [1, 2, 3], inhibitKeys := [], broadcastEnabled := true,
        overlayEnabled := true, bEnabled := true, bMode := BMode.focus_sweep,
        handler := buildHandler dupConfig }
      [(RawKey.code 'g', some 1), (RawKey.code 'g', some 1),
       (RawKey.code 'g', some 1)]).2 ≤ 1 :=
  (repeat_press_at_most_one_broadcast
    { running := true, suppress := 0, currentKeys := [], pressedNames := [],
      wins := [1, 2, 3], inhibitKeys := [], broadcastEnabled := true,
      overlayEnabled := true, bEnabled := true, bMode := BMode.focus_sweep,
      handler := buildHandler dupConfig } "g"
    [(RawKey.code 'g', some 1), (RawKey.code 'g', some 1),
     (RawKey.code 'g', some 1)]
    (by decide) (by decide) (by decide) (by decide)).1

/-- Claim C6: with managed windows [W1, W2, W3], active window W1 (truthy),
    broadcast enabled, empty inhibit set and no shortcut matching plain g,
    a first press of g yields exactly one send_literal("g", [W1,W2,W3],
    exclude = W1) call, and the focus-sweep broadcaster injects exactly to
    W2 and W3, once each. -/
theorem plain_g_one_literal_broadcast (s : CoreState) (w1 w2 w3 : Nat)
    (hr : s.running = true) (hs : s.suppress = 0)
    (hwins : s.wins = [w1, w2, w3]) (hw1 : w1 ≠ 0)
    (h21 : w2 ≠ w1) (h31 : w3 ≠ w1)
    (hb : s.broadcastEnabled = true)
    (hinh : s.inhibitKeys = [])
    (hp : "g" ∉ s.pressedNames)
    (ha : altHeld s.currentKeys = false) (hc : ctrlHeld s.currentKeys = false)
    (hsh : shiftHeld s.currentKeys = false)
    (hmatch : SHandler.matchCombo s.handler "g" = none) :
    (onPress s (RawKey.code 'g') (some w1)).2 =
      [OutCall.sendLiteral "g" [w1, w2, w3] (some w1)] ∧
    injectTargets (Broadcaster.send_literal ⟨true, BMode.focus_sweep⟩ "g"
      [w1, w2, w3] (some w1) (some w1) (fun _ => false)).1 = [w2, w3] := by
  constructor
  · have hdec : decodeName (RawKey.code 'g') = "g" := rfl
    have hcombo : comboNow (altHeld s.currentKeys) (ctrlHeld s.currentKeys)
        (shiftHeld s.currentKeys) (decodeName (RawKey.code 'g')) = "g" := by
      rw [ha, hc, hsh, hdec]
      decide
    have h := onPress_nomatch_literal (RawKey.code 'g') (some w1) hr hs
      (by decide) (hdec ▸ hp)
      (by rw [hwins]; simp [activeIn])
      (by rw [hcombo]; exact hmatch)
      hb
      (by rw [hcombo, hdec, hinh]; simp)
      (by rw [ha, hc, hsh, hdec]; decide)
    rw [h, hdec, hwins]
  · simp only [Broadcaster.send_literal, Bool.not_true, Bool.false_or]
    rw [if_neg (by simp)]
    simp only [sendLiteralFocusSweep, focusSweepTrace, sweepSteps]
    rw [show excludedHit (some w1) w1 = true from by simp [excludedHit, hw1]]
    rw [show excludedHit (some w1) w2 = false from by simp [excludedHit, h21]]
    rw [show excludedHit (some w1) w3 = false from by simp [excludedHit, h31]]
    rw [if_pos hw1]
    simp [injectTargets]

/-- Witness for C6 with windows 1, 2, 3. -/
theorem plain_g_one_literal_broadcast_witness :
    (onPress
      { running := true, suppress := 0, currentKeys := [], pressedNames := [],
        wins := [1, 2, 3], inhibitKeys := [], broadcastEnabled := true,
        overlayEnabled := true, bEnabled := true, bMode := BMode.focus_sweep,
        handler := buildHandler dupConfig } (RawKey.code 'g') (some 1)).2 =
      [OutCall.sendLiteral "g" [1, 2, 3] (some 1)] ∧
    injectTargets (Broadcaster.send_literal ⟨true, BMode.focus_sweep⟩ "g"
      [1, 2, 3] (some 1) (some 1) (fun _ => false)).1 = [2, 3] :=
  plain_g_one_literal_broadcast
    { running := true, suppress := 0, currentKeys := [], pressedNames := [],
      wins := [1, 2, 3], inhibitKeys := [], broadcastEnabled := true,
      overlayEnabled := true, bEnabled := true, bMode := BMode.focus_sweep,
      handler := buildHandler dupConfig } 1 2 3
    (by decide) (by decide) (by decide) (by decide) (by decide) (by decide)
    (by decide) (by decide) (by decide) (by decide) (by decide) (by decide)
    (by decide)
